import Mathlib

/-!
Verification of the fluid2d-rs SPH fluid simulation core.

The Rust source (src/kernels.rs, src/systems.rs, src/resources/simulation.rs,
src/resources/config.rs) is shallowly embedded here: f32 arithmetic is modelled
by real numbers, Vec2 by a pair of reals, the dense particle arrays by lists,
and the spatial grid by a list of buckets of particle indices.  Rust's
saturating f32-to-usize cast is modelled by the integer floor truncated to Nat,
and the wrapping isize-to-usize cast in the 3x3 cell walk is modelled by
integer coordinates guarded by the same bounds checks the code performs.
-/

noncomputable section

namespace Fluid2d

/-- A 2D vector, modelling bevy/glam Vec2 over the reals. -/
structure Vec2 where
  x : ℝ
  y : ℝ

namespace Vec2

def zero : Vec2 := ⟨0, 0⟩

instance : Zero Vec2 := ⟨zero⟩

def add (a b : Vec2) : Vec2 := ⟨a.x + b.x, a.y + b.y⟩

def sub (a b : Vec2) : Vec2 := ⟨a.x - b.x, a.y - b.y⟩

def neg (a : Vec2) : Vec2 := ⟨-a.x, -a.y⟩

instance : Add Vec2 := ⟨add⟩

instance : Sub Vec2 := ⟨sub⟩

instance : Neg Vec2 := ⟨neg⟩

/-- Scalar multiplication (Vec2 * f32 in glam). -/
def smul (c : ℝ) (a : Vec2) : Vec2 := ⟨c * a.x, c * a.y⟩

instance : SMul ℝ Vec2 := ⟨smul⟩

/-- Division of a vector by a scalar (Vec2 / f32 in glam). -/
def sdiv (a : Vec2) (c : ℝ) : Vec2 := ⟨a.x / c, a.y / c⟩

/-- Squared Euclidean length, `Vec2::length_squared`. -/
def length_sq (a : Vec2) : ℝ := a.x * a.x + a.y * a.y

/-- Euclidean length, `Vec2::length`. -/
def length (a : Vec2) : ℝ := Real.sqrt a.length_sq

/-- Squared distance between two points, `Vec2::distance_squared`. -/
def dist_sq (a b : Vec2) : ℝ := (sub b a).length_sq

/-- Distance between two points, `Vec2::distance`. -/
def dist (a b : Vec2) : ℝ := Real.sqrt (dist_sq a b)

theorem add_def (a b : Vec2) : a + b = ⟨a.x + b.x, a.y + b.y⟩ := rfl

theorem sub_def (a b : Vec2) : a - b = ⟨a.x - b.x, a.y - b.y⟩ := rfl

theorem smul_def (c : ℝ) (a : Vec2) : c • a = ⟨c * a.x, c * a.y⟩ := rfl

theorem dist_nonneg (a b : Vec2) : 0 ≤ dist a b := Real.sqrt_nonneg _

theorem dist_sq_nonneg (a b : Vec2) : 0 ≤ dist_sq a b := by
  have hx := mul_self_nonneg (b.x - a.x)
  have hy := mul_self_nonneg (b.y - a.y)
  simp only [dist_sq, length_sq, sub]
  linarith

theorem dist_sq_self (a : Vec2) : dist_sq a a = 0 := by
  simp [dist_sq, length_sq, sub]

/-- The horizontal separation is bounded by the Euclidean distance. -/
theorem abs_sub_x_le_dist (a b : Vec2) : |b.x - a.x| ≤ dist a b := by
  have h1 : (b.x - a.x) * (b.x - a.x) ≤ dist_sq a b := by
    have := mul_self_nonneg (b.y - a.y)
    simp only [dist_sq, length_sq, sub]
    linarith
  calc |b.x - a.x| = Real.sqrt ((b.x - a.x) * (b.x - a.x)) :=
        (Real.sqrt_mul_self_eq_abs _).symm
    _ ≤ dist a b := Real.sqrt_le_sqrt h1

/-- The vertical separation is bounded by the Euclidean distance. -/
theorem abs_sub_y_le_dist (a b : Vec2) : |b.y - a.y| ≤ dist a b := by
  have h1 : (b.y - a.y) * (b.y - a.y) ≤ dist_sq a b := by
    have := mul_self_nonneg (b.x - a.x)
    simp only [dist_sq, length_sq, sub]
    linarith
  calc |b.y - a.y| = Real.sqrt ((b.y - a.y) * (b.y - a.y)) :=
        (Real.sqrt_mul_self_eq_abs _).symm
    _ ≤ dist a b := Real.sqrt_le_sqrt h1

/-- When the squared distance is below a square, the distance is below the root. -/
theorem dist_lt_of_dist_sq_lt {a b : Vec2} {h : ℝ} (hh : 0 ≤ h)
    (hlt : dist_sq a b < h * h) : dist a b < h := by
  have := Real.sqrt_lt_sqrt (dist_sq_nonneg a b) hlt
  rwa [show h * h = h ^ 2 by ring, Real.sqrt_sq hh] at this

/-- A nonzero difference vector divided by its length is a unit vector. -/
theorem length_sdiv_dist (pos other_pos : Vec2) (hd : 0 < dist pos other_pos) :
    length (sdiv (other_pos - pos) (dist pos other_pos)) = 1 := by
  have hr2 : dist pos other_pos * dist pos other_pos = dist_sq pos other_pos :=
    Real.mul_self_sqrt (dist_sq_nonneg pos other_pos)
  have hne : dist pos other_pos ≠ 0 := ne_of_gt hd
  have hx : (other_pos - pos).x = other_pos.x - pos.x := rfl
  have hy : (other_pos - pos).y = other_pos.y - pos.y := rfl
  have hcomp : length_sq (sdiv (other_pos - pos) (dist pos other_pos)) = 1 := by
    unfold length_sq sdiv
    simp only [hx, hy]
    field_simp
    rw [hr2]
    rfl
  unfold length
  rw [hcomp, Real.sqrt_one]

end Vec2

/-! ## Constants from src/resources/config.rs -/

/-- Number of particles in the simulation (`PARTICLE_COUNT`). -/
def PARTICLE_COUNT : ℕ := 4000

/-- Visual radius of each particle (`PARTICLE_RADIUS`). -/
def PARTICLE_RADIUS : ℝ := 2

/-- Width of the simulation boundary (`BOUNDARY_WIDTH`). -/
def BOUNDARY_WIDTH : ℝ := 1280

/-- Height of the simulation boundary (`BOUNDARY_HEIGHT`). -/
def BOUNDARY_HEIGHT : ℝ := 720

/-- Runtime-tunable simulation parameters (`FluidConfig`). -/
structure FluidConfig where
  smoothing_radius : ℝ
  particle_mass : ℝ
  target_density : ℝ
  pressure_multiplier : ℝ
  viscosity_strength : ℝ
  gravity : Vec2
  time_scale : ℝ
  boundary_damping : ℝ
  mouse_radius : ℝ
  mouse_strength : ℝ

/-! ## SPH kernels from src/kernels.rs -/

/-- Poly6 kernel for density calculation (2D version), `poly6_kernel`:
W(r,h) = (4/(pi*h^8)) * (h^2 - r^2)^3 on squared-distance input.  The Rust
local bindings h2, h8, coeff, diff are inlined. -/
def poly6_kernel (dist_sq h : ℝ) : ℝ :=
  if dist_sq < h * h then
    4 / (Real.pi * h ^ 8) * (h * h - dist_sq) * (h * h - dist_sq) * (h * h - dist_sq)
  else
    0

/-- Spiky kernel gradient magnitude, `spiky_kernel_gradient`:
(10/(pi h^5)) * (h - r)^3. -/
def spiky_kernel_gradient (dist h : ℝ) : ℝ :=
  if dist < h then
    10 / (Real.pi * h ^ 5) * (h - dist) * (h - dist) * (h - dist)
  else
    0

/-- Viscosity kernel laplacian, `viscosity_laplacian`: (40/(pi h^6)) * (h - r). -/
def viscosity_laplacian (dist h : ℝ) : ℝ :=
  if dist < h then
    40 / (Real.pi * h ^ 6) * (h - dist)
  else
    0

theorem poly6_pos {s h : ℝ} (hh : 0 < h) (hc : s < h * h) :
    0 < poly6_kernel s h := by
  unfold poly6_kernel
  simp only [hc, if_true]
  have hh8 : (0:ℝ) < h ^ 8 := pow_pos hh 8
  have hpi := Real.pi_pos
  have hcoeff : (0:ℝ) < 4 / (Real.pi * h ^ 8) := by positivity
  have hdiff : 0 < h * h - s := by linarith
  positivity

theorem poly6_nonneg {s h : ℝ} (hh : 0 < h) : 0 ≤ poly6_kernel s h := by
  unfold poly6_kernel
  by_cases hc : s < h * h
  · have := poly6_pos hh hc
    unfold poly6_kernel at this
    simp only [hc, if_true] at this ⊢
    linarith
  · simp [hc]

theorem poly6_of_not_lt {s h : ℝ} (hc : ¬ s < h * h) : poly6_kernel s h = 0 := by
  simp [poly6_kernel, hc]

theorem spiky_pos {r h : ℝ} (hr : r < h) (hh : 0 < h) :
    0 < spiky_kernel_gradient r h := by
  unfold spiky_kernel_gradient
  simp only [hr, if_true]
  have hh5 : (0:ℝ) < h ^ 5 := pow_pos hh 5
  have hpi := Real.pi_pos
  have hdiff : 0 < h - r := by linarith
  positivity

theorem visc_pos {r h : ℝ} (hr : r < h) (hh : 0 < h) :
    0 < viscosity_laplacian r h := by
  unfold viscosity_laplacian
  simp only [hr, if_true]
  have hh6 : (0:ℝ) < h ^ 6 := pow_pos hh 6
  have hpi := Real.pi_pos
  have hdiff : 0 < h - r := by linarith
  positivity

/-- C8: for every smoothing radius h > 0, each of the three kernels is zero
exactly at and beyond its support radius — poly6_kernel (h*h) h = 0,
spiky_kernel_gradient h h = 0, viscosity_laplacian h h = 0, and all three
return 0 for any argument at or past support — and all three are strictly
positive for separations 0 ≤ r < h. -/
theorem kernels_support_and_positivity (h : ℝ) (hh : 0 < h) :
    poly6_kernel (h * h) h = 0 ∧
    spiky_kernel_gradient h h = 0 ∧
    viscosity_laplacian h h = 0 ∧
    (∀ s, h * h ≤ s → poly6_kernel s h = 0) ∧
    (∀ r, h ≤ r → spiky_kernel_gradient r h = 0) ∧
    (∀ r, h ≤ r → viscosity_laplacian r h = 0) ∧
    (∀ r, 0 ≤ r → r < h →
      0 < poly6_kernel (r * r) h ∧
      0 < spiky_kernel_gradient r h ∧
      0 < viscosity_laplacian r h) := by
  refine ⟨by simp [poly6_kernel], by simp [spiky_kernel_gradient],
    by simp [viscosity_laplacian], ?_, ?_, ?_, ?_⟩
  · intro s hs
    exact poly6_of_not_lt (not_lt.mpr hs)
  · intro r hr
    simp [spiky_kernel_gradient, not_lt.mpr hr]
  · intro r hr
    simp [viscosity_laplacian, not_lt.mpr hr]
  · intro r hr0 hrh
    have hrr : r * r < h * h := by nlinarith
    exact ⟨poly6_pos hh hrr, spiky_pos hrh hh, visc_pos hrh hh⟩

/-- Witness for C8 at h = 1, r = 1/2. -/
theorem kernels_support_and_positivity_witness :
    (0:ℝ) < 1 ∧ poly6_kernel (1 * 1) 1 = 0 ∧
      0 < poly6_kernel ((1/2) * (1/2)) 1 := by
  have h := kernels_support_and_positivity 1 one_pos
  exact ⟨one_pos, h.1, (h.2.2.2.2.2.2 (1/2) (by norm_num) (by norm_num)).1⟩

/-! ## Integration pass of update_physics_rayon (src/systems.rs lines 184-214) -/

/-- Velocity after acceleration and numerical damping, from the integration
pass: acceleration = force / dens.max(0.0001); vel += acceleration * dt;
vel *= 0.99. -/
def dampedVel (dt : ℝ) (vel force : Vec2) (dens : ℝ) : Vec2 :=
  (0.99 : ℝ) • (vel + dt • Vec2.sdiv force (max dens 0.0001))

/-- Position after the Euler step, before the boundary response:
pos += vel * dt, with vel the damped velocity. -/
def rawPos (dt : ℝ) (pos vel force : Vec2) (dens : ℝ) : Vec2 :=
  pos + dt • dampedVel dt vel force dens

/-- Boundary half-extent on the horizontal axis: BOUNDARY_WIDTH/2 - PARTICLE_RADIUS. -/
def half_w : ℝ := BOUNDARY_WIDTH / 2 - PARTICLE_RADIUS

/-- Boundary half-extent on the vertical axis: BOUNDARY_HEIGHT/2 - PARTICLE_RADIUS. -/
def half_h : ℝ := BOUNDARY_HEIGHT / 2 - PARTICLE_RADIUS

/-- The boundary collision response at the end of the integration pass:
per-axis clamping with restitution, with the asymmetric floor rule
vel.y = vel.y.max(0.0) * restitution at the lower vertical bound. -/
def applyBoundary (restitution : ℝ) (p v : Vec2) : Vec2 × Vec2 :=
  let px := if p.x < -half_w then -half_w else if p.x > half_w then half_w else p.x
  let vx := if p.x < -half_w then v.x * (-restitution)
            else if p.x > half_w then v.x * (-restitution) else v.x
  let py := if p.y < -half_h then -half_h else if p.y > half_h then half_h else p.y
  let vy := if p.y < -half_h then max v.y 0 * restitution
            else if p.y > half_h then v.y * (-restitution) else v.y
  (⟨px, py⟩, ⟨vx, vy⟩)

/-- One particle's full integration-pass update (acceleration, damping, Euler
step, boundary response), returning the new (position, velocity). -/
def integrateParticle (restitution dt : ℝ) (pos vel force : Vec2) (dens : ℝ) :
    Vec2 × Vec2 :=
  applyBoundary restitution (rawPos dt pos vel force dens) (dampedVel dt vel force dens)

/-- C1: after one tick's integration pass, for every initial state, each
position component lies within its axis half-extent (clamped onto the boundary
on overflow), and the post-collision velocity obeys the restitution rule: on
horizontal overflow and at the upper vertical bound the axis velocity is
multiplied by minus the restitution factor, while at the lower vertical bound
the velocity is floored at zero and scaled by the restitution factor (the
asymmetric floor handling); both axes may trigger in the same tick. -/
theorem integration_boundary_containment (restitution dt : ℝ)
    (pos vel force : Vec2) (dens : ℝ) :
    (-half_w ≤ (integrateParticle restitution dt pos vel force dens).1.x ∧
      (integrateParticle restitution dt pos vel force dens).1.x ≤ half_w) ∧
    (-half_h ≤ (integrateParticle restitution dt pos vel force dens).1.y ∧
      (integrateParticle restitution dt pos vel force dens).1.y ≤ half_h) ∧
    (integrateParticle restitution dt pos vel force dens).2.x =
      (if (rawPos dt pos vel force dens).x < -half_w ∨
          half_w < (rawPos dt pos vel force dens).x then
        (dampedVel dt vel force dens).x * (-restitution)
      else (dampedVel dt vel force dens).x) ∧
    (integrateParticle restitution dt pos vel force dens).2.y =
      (if (rawPos dt pos vel force dens).y < -half_h then
        max (dampedVel dt vel force dens).y 0 * restitution
      else if half_h < (rawPos dt pos vel force dens).y then
        (dampedVel dt vel force dens).y * (-restitution)
      else (dampedVel dt vel force dens).y) := by
  have hw : (0:ℝ) ≤ half_w := by
    unfold half_w BOUNDARY_WIDTH PARTICLE_RADIUS; norm_num
  have hh : (0:ℝ) ≤ half_h := by
    unfold half_h BOUNDARY_HEIGHT PARTICLE_RADIUS; norm_num
  unfold integrateParticle applyBoundary
  set q := rawPos dt pos vel force dens
  set u := dampedVel dt vel force dens
  simp only [gt_iff_lt]
  split_ifs with h1 h2 h3 h4 h5 h6 h7 h8 h9 <;>
    refine ⟨⟨by linarith, by linarith⟩, ⟨by linarith, by linarith⟩, ?_, ?_⟩ <;>
    (try simp_all) <;> (try casesm* _ ∨ _) <;> first | rfl | linarith

/-! ## Pairwise force terms of the force pass (src/systems.rs lines 138-165) -/

/-- The symmetric pressure term from the force pass,
(press / dens / dens) + (pressures[j] / safe_dens / safe_dens) with
safe_dens = densities[j].max(0.0001).  Note the first divisor is the raw
density of particle i, not floored. -/
def pressure_term (press dens pressJ densJ : ℝ) : ℝ :=
  press / dens / dens + pressJ / max densJ 0.0001 / max densJ 0.0001

/-- Modelled from the spec: the pressure term as the spec's error-handling
policy describes it ("all divisions by density use an epsilon floor"), i.e.
with the epsilon floor applied to BOTH density divisors.  Used only to compare
against the source-derived pressure_term. -/
def pressure_term_all_floored (press dens pressJ densJ : ℝ) : ℝ :=
  press / max dens 0.0001 / max dens 0.0001 +
    pressJ / max densJ 0.0001 / max densJ 0.0001

/-- One candidate j's contribution to f_pressure for particle i:
-mass * mass * pressure_term * slope * dir under the gate
dist < h && dist > 0.0001, else no contribution. -/
def pairPressureForce (mass h press dens pressJ densJ : ℝ)
    (pos other_pos : Vec2) : Vec2 :=
  if Vec2.dist pos other_pos < h ∧ Vec2.dist pos other_pos > 0.0001 then
    (-mass * mass * pressure_term press dens pressJ densJ *
      spiky_kernel_gradient (Vec2.dist pos other_pos) h) •
      Vec2.sdiv (other_pos - pos) (Vec2.dist pos other_pos)
  else 0

/-- One candidate j's contribution to f_viscosity for particle i:
vel_diff * viscosity_mu * laplacian * (1.0 / safe_dens) * mass under the same
distance gate. -/
def pairViscosityForce (mass mu h : ℝ) (vel velJ : Vec2) (densJ : ℝ)
    (pos other_pos : Vec2) : Vec2 :=
  if Vec2.dist pos other_pos < h ∧ Vec2.dist pos other_pos > 0.0001 then
    (mu * viscosity_laplacian (Vec2.dist pos other_pos) h *
      (1 / max densJ 0.0001) * mass) • (velJ - vel)
  else 0

/-- C4: for a neighbor candidate at distance dist with 0.0001 < dist < h, the
pressure-force contribution equals
-mass^2 * (p_i/rho_i^2 + p_j/max(rho_j, 1e-4)^2) * spiky_kernel_gradient dist h
scaled onto the unit vector from i to j, and that direction vector really is a
unit vector; a pair at distance at most 1e-4 contributes nothing. -/
theorem pair_pressure_force_formula (mass h press dens pressJ densJ : ℝ)
    (pos other_pos : Vec2) :
    (0.0001 < Vec2.dist pos other_pos → Vec2.dist pos other_pos < h →
      pairPressureForce mass h press dens pressJ densJ pos other_pos =
        (-(mass ^ 2) * (press / dens ^ 2 + pressJ / max densJ 0.0001 ^ 2) *
          spiky_kernel_gradient (Vec2.dist pos other_pos) h) •
          Vec2.sdiv (other_pos - pos) (Vec2.dist pos other_pos) ∧
      Vec2.length (Vec2.sdiv (other_pos - pos) (Vec2.dist pos other_pos)) = 1) ∧
    (Vec2.dist pos other_pos ≤ 0.0001 →
      pairPressureForce mass h press dens pressJ densJ pos other_pos = 0) := by
  constructor
  · intro hlo hhi
    constructor
    · unfold pairPressureForce
      rw [if_pos ⟨hhi, hlo⟩]
      congr 1
      unfold pressure_term
      ring
    · exact Vec2.length_sdiv_dist pos other_pos (lt_trans (by norm_num) hlo)
  · intro hle
    unfold pairPressureForce
    rw [if_neg]
    intro hcon
    have := hcon.2
    linarith

/-- C2 counterexample: the claim that every division by a density is floored
at epsilon fails for the p_i/rho_i^2 term, which divides by the raw density;
at p_i = 1, rho_i = 0, p_j = 0, rho_j = 1 the source pressure term differs
from the all-floored version the spec describes. -/
theorem pressure_term_not_all_floored :
    pressure_term 1 0 0 1 ≠ pressure_term_all_floored 1 0 0 1 := by
  unfold pressure_term pressure_term_all_floored
  norm_num

/-- C2 amended: the rho_j divisions of the force pass and the density division
of the integration pass do apply the 1e-4 floor (so a density at or below the
floor gives the same result as the floor itself), while the p_i/rho_i^2 term
of the pressure force divides by the raw, unfloored density. -/
theorem density_division_floors (press pressJ mass mu h dt : ℝ)
    (pos other_pos vel velJ force : Vec2) (dens densJ : ℝ)
    (hdens : dens ≤ 0.0001) (hdensJ : densJ ≤ 0.0001) :
    pairViscosityForce mass mu h vel velJ densJ pos other_pos =
      pairViscosityForce mass mu h vel velJ 0.0001 pos other_pos ∧
    dampedVel dt vel force dens = dampedVel dt vel force 0.0001 ∧
    pairPressureForce mass h press dens pressJ densJ pos other_pos =
      (if Vec2.dist pos other_pos < h ∧ Vec2.dist pos other_pos > 0.0001 then
        (-mass * mass * (press / dens / dens + pressJ / 0.0001 / 0.0001) *
          spiky_kernel_gradient (Vec2.dist pos other_pos) h) •
          Vec2.sdiv (other_pos - pos) (Vec2.dist pos other_pos)
      else 0) := by
  have hmJ : max densJ 0.0001 = (0.0001:ℝ) := max_eq_right hdensJ
  have hm : max dens 0.0001 = (0.0001:ℝ) := max_eq_right hdens
  have hid : max (0.0001:ℝ) 0.0001 = (0.0001:ℝ) := max_self _
  refine ⟨?_, ?_, ?_⟩
  · unfold pairViscosityForce
    rw [hmJ, hid]
  · unfold dampedVel
    rw [hm, hid]
  · unfold pairPressureForce pressure_term
    rw [hmJ]

/-- Witness for C2's amended theorem at zero densities. -/
theorem density_division_floors_witness :
    (0:ℝ) ≤ 0.0001 ∧
    dampedVel 1 ⟨0, 0⟩ ⟨1, 0⟩ 0 = dampedVel 1 ⟨0, 0⟩ ⟨1, 0⟩ 0.0001 := by
  refine ⟨by norm_num, ?_⟩
  exact (density_division_floors 0 0 1 1 1 1 ⟨0, 0⟩ ⟨1, 0⟩ ⟨0, 0⟩ ⟨0, 0⟩ ⟨1, 0⟩ 0 0
    (by norm_num) (by norm_num)).2.1

/-- Witness for C4 at a concrete pair at distance 1 with h = 2. -/
theorem pair_pressure_force_formula_witness :
    (0.0001:ℝ) < Vec2.dist ⟨0, 0⟩ ⟨1, 0⟩ ∧ Vec2.dist ⟨0, 0⟩ ⟨1, 0⟩ < 2 ∧
    Vec2.length (Vec2.sdiv ((⟨1, 0⟩ : Vec2) - ⟨0, 0⟩) (Vec2.dist ⟨0, 0⟩ ⟨1, 0⟩)) = 1 := by
  have hdist : Vec2.dist (⟨0, 0⟩ : Vec2) ⟨1, 0⟩ = 1 := by
    unfold Vec2.dist Vec2.dist_sq Vec2.length_sq Vec2.sub
    norm_num
  refine ⟨by rw [hdist]; norm_num, by rw [hdist]; norm_num, ?_⟩
  exact ((pair_pressure_force_formula 1 2 0 1 0 1 ⟨0, 0⟩ ⟨1, 0⟩).1
    (by rw [hdist]; norm_num) (by rw [hdist]; norm_num)).2

/-! ## Spatial grid (src/systems.rs lines 62-74, src/resources/simulation.rs new) -/

/-- Rust's saturating f32-to-usize cast on a real value: truncation toward
zero for the nonnegative range, negatives saturate to 0 (for nonnegative
inputs this is the floor). -/
def f32_as_usize (x : ℝ) : ℕ := (⌊x⌋).toNat

/-- Grid geometry fields of FluidSimulation (cell size, cell counts, offsets). -/
structure GridGeom where
  cell_size : ℝ
  width_cells : ℕ
  height_cells : ℕ
  off_x : ℝ
  off_y : ℝ

/-- Horizontal cell coordinate: ((pos.x + off_x) / cell_size) as usize. -/
def cellX (g : GridGeom) (pos : Vec2) : ℕ :=
  f32_as_usize ((pos.x + g.off_x) / g.cell_size)

/-- Vertical cell coordinate: ((pos.y + off_y) / cell_size) as usize. -/
def cellY (g : GridGeom) (pos : Vec2) : ℕ :=
  f32_as_usize ((pos.y + g.off_y) / g.cell_size)

/-- Bucket index a particle is pushed into during the rebuild:
(gy * grid_w + gx).clamp(0, grid_map.len() - 1), with grid_map.len()
= width_cells * height_cells; the lower clamp is vacuous on Nat. -/
def bucketIndex (g : GridGeom) (pos : Vec2) : ℕ :=
  min (cellY g pos * g.width_cells + cellX g pos)
    (g.width_cells * g.height_cells - 1)

/-- The cleared grid_map: one empty bucket per cell. -/
def clearGrid (g : GridGeom) : List (List ℕ) :=
  List.replicate (g.width_cells * g.height_cells) []

/-- sim.grid_map[idx].push(i). -/
def pushBucket (gm : List (List ℕ)) (idx i : ℕ) : List (List ℕ) :=
  gm.set idx (gm.getD idx [] ++ [i])

/-- The grid rebuild loop: clear every bucket, then push each particle index
into the bucket of its cell, in particle order. -/
def rebuildGrid (g : GridGeom) (positions : List Vec2) : List (List ℕ) :=
  positions.enum.foldl (fun gm p => pushBucket gm (bucketIndex g p.2) p.1)
    (clearGrid g)

/-- The grid geometry built by FluidSimulation::new (max_h = 25.0). -/
def newGridGeom : GridGeom where
  cell_size := 25
  width_cells := (⌈BOUNDARY_WIDTH / 25⌉).toNat + 4
  height_cells := (⌈BOUNDARY_HEIGHT / 25⌉).toNat + 4
  off_x := BOUNDARY_WIDTH / 2 + 25 * 2
  off_y := BOUNDARY_HEIGHT / 2 + 25 * 2

theorem newGridGeom_width : newGridGeom.width_cells = 56 := by
  unfold newGridGeom BOUNDARY_WIDTH
  norm_num
  rw [show (⌈(256:ℝ)/5⌉ = 52) by rw [Int.ceil_eq_iff]; norm_num]
  rfl

theorem newGridGeom_height : newGridGeom.height_cells = 33 := by
  unfold newGridGeom BOUNDARY_HEIGHT
  norm_num
  rw [show (⌈(144:ℝ)/5⌉ = 29) by rw [Int.ceil_eq_iff]; norm_num]
  rfl

theorem length_pushBucket (gm : List (List ℕ)) (idx i : ℕ) :
    (pushBucket gm idx i).length = gm.length := List.length_set gm idx _

theorem bucketIndex_lt (g : GridGeom) (pos : Vec2)
    (hg : 0 < g.width_cells * g.height_cells) :
    bucketIndex g pos < g.width_cells * g.height_cells := by
  unfold bucketIndex
  omega

theorem pushBucket_getD_self (gm : List (List ℕ)) (idx i : ℕ)
    (hidx : idx < gm.length) :
    (pushBucket gm idx i).getD idx [] = gm.getD idx [] ++ [i] := by
  unfold pushBucket
  induction gm generalizing idx with
  | nil => simp at hidx
  | cons b bs ih =>
    cases idx with
    | zero => simp
    | succ n =>
      simp only [List.getD_cons_succ, List.set_cons_succ]
      exact ih n (by simpa using hidx)

theorem pushBucket_getD_ne (gm : List (List ℕ)) (idx i k : ℕ) (hk : k ≠ idx) :
    (pushBucket gm idx i).getD k [] = gm.getD k [] := by
  unfold pushBucket
  induction gm generalizing idx k with
  | nil => simp
  | cons b bs ih =>
    cases idx with
    | zero =>
      cases k with
      | zero => exact absurd rfl hk
      | succ m => simp
    | succ n =>
      cases k with
      | zero => simp
      | succ m =>
        simp only [List.getD_cons_succ, List.set_cons_succ]
        exact ih n m (fun hc => hk (by omega))

theorem flatten_pushBucket (gm : List (List ℕ)) (idx i : ℕ)
    (hidx : idx < gm.length) :
    (pushBucket gm idx i).flatten.Perm (gm.flatten ++ [i]) := by
  unfold pushBucket
  induction gm generalizing idx with
  | nil => simp at hidx
  | cons b bs ih =>
    cases idx with
    | zero =>
      simp only [List.getD_cons_zero, List.set_cons_zero, List.flatten_cons]
      rw [List.append_assoc, List.append_assoc]
      exact List.Perm.append_left b List.perm_append_comm
    | succ n =>
      simp only [List.getD_cons_succ, List.set_cons_succ, List.flatten_cons]
      have := ih n (by simpa using hidx)
      calc (b ++ (bs.set n (bs.getD n [] ++ [i])).flatten).Perm
            (b ++ (bs.flatten ++ [i])) := List.Perm.append_left b this
        _ = (b ++ bs.flatten) ++ [i] := by rw [List.append_assoc]

theorem pushBucket_oob (gm : List (List ℕ)) (idx i : ℕ)
    (h : gm.length ≤ idx) : pushBucket gm idx i = gm :=
  List.set_eq_of_length_le h

/-- The rebuild loop's step function. -/
def rebuildStep (g : GridGeom) (gm : List (List ℕ)) (p : ℕ × Vec2) :
    List (List ℕ) :=
  pushBucket gm (bucketIndex g p.2) p.1

theorem rebuildGrid_eq_foldl (g : GridGeom) (positions : List Vec2) :
    rebuildGrid g positions = positions.enum.foldl (rebuildStep g) (clearGrid g) :=
  rfl

theorem rebuildFold_length (g : GridGeom) (l : List (ℕ × Vec2))
    (gm : List (List ℕ)) :
    (l.foldl (rebuildStep g) gm).length = gm.length := by
  induction l generalizing gm with
  | nil => rfl
  | cons p ps ih =>
    simp only [List.foldl_cons]
    rw [ih, rebuildStep, length_pushBucket]

theorem rebuildFold_flatten_perm (g : GridGeom) (l : List (ℕ × Vec2))
    (gm : List (List ℕ)) (hlen : gm.length = g.width_cells * g.height_cells)
    (hg : 0 < g.width_cells * g.height_cells) :
    (l.foldl (rebuildStep g) gm).flatten.Perm (gm.flatten ++ l.map Prod.fst) := by
  induction l generalizing gm with
  | nil => simp
  | cons p ps ih =>
    simp only [List.foldl_cons, List.map_cons]
    have hperm1 := flatten_pushBucket gm (bucketIndex g p.2) p.1
      (by rw [hlen]; exact bucketIndex_lt g p.2 hg)
    have hperm2 := ih (pushBucket gm (bucketIndex g p.2) p.1)
      (by rw [length_pushBucket, hlen])
    refine hperm2.trans ?_
    refine (hperm1.append_right (ps.map Prod.fst)).trans ?_
    rw [List.append_assoc]
    exact List.Perm.refl _

theorem rebuildFold_getD_mono (g : GridGeom) (l : List (ℕ × Vec2))
    (gm : List (List ℕ)) (b x : ℕ) (hx : x ∈ gm.getD b []) :
    x ∈ (l.foldl (rebuildStep g) gm).getD b [] := by
  induction l generalizing gm with
  | nil => exact hx
  | cons p ps ih =>
    simp only [List.foldl_cons]
    apply ih
    by_cases hb : b = bucketIndex g p.2
    · rw [rebuildStep, hb]
      by_cases hlt : bucketIndex g p.2 < gm.length
      · rw [pushBucket_getD_self gm _ _ hlt]
        exact List.mem_append_left _ (hb ▸ hx)
      · rw [pushBucket_oob gm _ _ (le_of_not_lt hlt)]
        exact hb ▸ hx
    · rw [rebuildStep, pushBucket_getD_ne gm _ _ b hb]
      exact hx

theorem rebuildFold_mem (g : GridGeom) (l : List (ℕ × Vec2))
    (gm : List (List ℕ)) (hlen : gm.length = g.width_cells * g.height_cells)
    (hg : 0 < g.width_cells * g.height_cells) (k : ℕ) (pos : Vec2)
    (hmem : (k, pos) ∈ l) :
    k ∈ (l.foldl (rebuildStep g) gm).getD (bucketIndex g pos) [] := by
  induction l generalizing gm with
  | nil => simp at hmem
  | cons p ps ih =>
    simp only [List.foldl_cons]
    rcases List.mem_cons.mp hmem with heq | htail
    · subst heq
      apply rebuildFold_getD_mono
      rw [rebuildStep, pushBucket_getD_self gm _ _ (by
        rw [hlen]; exact bucketIndex_lt g pos hg)]
      exact List.mem_append_right _ (List.mem_singleton_self k)
    · exact ih (pushBucket gm (bucketIndex g p.2) p.1)
        (by rw [length_pushBucket, hlen]) htail

/-- C6: after the grid rebuild, the union of all bucket contents is exactly
the index set 0..N-1, each index occurring exactly once (the flattened grid is
a permutation of List.range N), and every particle lands in the bucket of the
cell computed from floor((position + origin_offset) / cell_size), with the
flat index clamped into the valid bucket range. -/
theorem grid_rebuild_completeness (g : GridGeom) (positions : List Vec2)
    (hg : 0 < g.width_cells * g.height_cells) :
    (rebuildGrid g positions).flatten.Perm (List.range positions.length) ∧
    (∀ i pos, positions.get? i = some pos →
      i ∈ (rebuildGrid g positions).getD (bucketIndex g pos) []) := by
  constructor
  · have h := rebuildFold_flatten_perm g positions.enum (clearGrid g)
      (by simp [clearGrid]) hg
    rw [rebuildGrid_eq_foldl]
    simpa [clearGrid, List.flatten_replicate_nil, List.enum_map_fst] using h
  · intro i pos hip
    rw [rebuildGrid_eq_foldl]
    exact rebuildFold_mem g positions.enum (clearGrid g)
      (by simp [clearGrid]) hg i pos (List.mk_mem_enum_iff_get?.mpr hip)

/-- Witness for C6 on a one-cell grid holding a single particle. -/
theorem grid_rebuild_completeness_witness :
    0 < (1:ℕ) * 1 ∧
    (rebuildGrid ⟨1, 1, 1, 0, 0⟩ [⟨0, 0⟩]).flatten.Perm (List.range 1) := by
  refine ⟨by norm_num, ?_⟩
  exact (grid_rebuild_completeness ⟨1, 1, 1, 0, 0⟩ [⟨0, 0⟩] (by norm_num)).1

/-! ## The 3x3 neighbor walk used by the density and force passes -/

/-- The loop offsets (dy, dx) for dy in -1..=1, dx in -1..=1, in code order. -/
def cellOffsets : List (ℤ × ℤ) :=
  [(-1, -1), (-1, 0), (-1, 1), (0, -1), (0, 0), (0, 1), (1, -1), (1, 0), (1, 1)]

/-- The candidate particle indices enumerated by the 3x3 cell walk around cell
(gx, gy): cells failing the bounds checks (including the wrapped negative
coordinates of the isize-to-usize cast, which always fail cx >= width /
cy >= height) are skipped, the rest contribute their bucket. -/
def neighborCandidates (gm : List (List ℕ)) (W Hc gx gy : ℕ) : List ℕ :=
  (cellOffsets.map (fun d =>
    if 0 ≤ (gx : ℤ) + d.2 ∧ (gx : ℤ) + d.2 < (W : ℤ) ∧
        0 ≤ (gy : ℤ) + d.1 ∧ (gy : ℤ) + d.1 < (Hc : ℤ) then
      gm.getD (((gy : ℤ) + d.1).toNat * W + ((gx : ℤ) + d.2).toNat) []
    else [])).flatten

/-- Integer (un-truncated) horizontal cell coordinate. -/
def cellXZ (g : GridGeom) (pos : Vec2) : ℤ := ⌊(pos.x + g.off_x) / g.cell_size⌋

/-- Integer (un-truncated) vertical cell coordinate. -/
def cellYZ (g : GridGeom) (pos : Vec2) : ℤ := ⌊(pos.y + g.off_y) / g.cell_size⌋

theorem cellX_eq_toNat (g : GridGeom) (pos : Vec2) :
    cellX g pos = (cellXZ g pos).toNat := rfl

theorem cellY_eq_toNat (g : GridGeom) (pos : Vec2) :
    cellY g pos = (cellYZ g pos).toNat := rfl

theorem mem_neighborCandidates (gm : List (List ℕ)) (W Hc gx gy : ℕ)
    (dy dx : ℤ) (hd : (dy, dx) ∈ cellOffsets)
    (hcx : 0 ≤ (gx : ℤ) + dx) (hcx2 : (gx : ℤ) + dx < (W : ℤ))
    (hcy : 0 ≤ (gy : ℤ) + dy) (hcy2 : (gy : ℤ) + dy < (Hc : ℤ)) (j : ℕ)
    (hj : j ∈ gm.getD (((gy : ℤ) + dy).toNat * W + ((gx : ℤ) + dx).toNat) []) :
    j ∈ neighborCandidates gm W Hc gx gy := by
  unfold neighborCandidates
  rw [List.mem_flatten]
  refine ⟨_, List.mem_map_of_mem _ hd, ?_⟩
  simp only
  rw [if_pos ⟨hcx, hcx2, hcy, hcy2⟩]
  exact hj

/-- Two reals within distance 1 have floors within one step of each other. -/
theorem floor_within_one {a b : ℝ} (hab : |a - b| ≤ 1) :
    ⌊a⌋ = ⌊b⌋ - 1 ∨ ⌊a⌋ = ⌊b⌋ ∨ ⌊a⌋ = ⌊b⌋ + 1 := by
  have h1 : -1 ≤ a - b := (abs_le.mp hab).1
  have h2 : a - b ≤ 1 := (abs_le.mp hab).2
  have hbf := Int.floor_le b
  have hbc := Int.lt_floor_add_one b
  have l1 : ⌊b⌋ - 1 ≤ ⌊a⌋ := by
    rw [Int.le_floor]
    push_cast
    linarith
  have l2 : ⌊a⌋ ≤ ⌊b⌋ + 1 := by
    rw [← Int.lt_add_one_iff, Int.floor_lt]
    push_cast
    linarith
  omega

/-- Cell coordinate range of an in-boundary position for the grid geometry of
FluidSimulation::new: the horizontal integer cell coordinate lies in [2, 53]. -/
theorem cellXZ_range (P : Vec2) (hx : |P.x| ≤ BOUNDARY_WIDTH / 2) :
    2 ≤ cellXZ newGridGeom P ∧ cellXZ newGridGeom P ≤ 53 := by
  unfold cellXZ newGridGeom BOUNDARY_WIDTH at *
  simp only at *
  have h1 : -640 ≤ P.x := by
    have := (abs_le.mp hx).1
    linarith
  have h2 : P.x ≤ 640 := by
    have := (abs_le.mp hx).2
    linarith
  constructor
  · rw [Int.le_floor]
    push_cast
    rw [le_div_iff (by norm_num : (0:ℝ) < 25)]
    linarith
  · rw [← Int.lt_add_one_iff, Int.floor_lt]
    push_cast
    rw [div_lt_iff (by norm_num : (0:ℝ) < 25)]
    linarith

/-- Vertical integer cell coordinate of an in-boundary position lies in [2, 30]. -/
theorem cellYZ_range (P : Vec2) (hy : |P.y| ≤ BOUNDARY_HEIGHT / 2) :
    2 ≤ cellYZ newGridGeom P ∧ cellYZ newGridGeom P ≤ 30 := by
  unfold cellYZ newGridGeom BOUNDARY_HEIGHT at *
  simp only at *
  have h1 : -360 ≤ P.y := by
    have := (abs_le.mp hy).1
    linarith
  have h2 : P.y ≤ 360 := by
    have := (abs_le.mp hy).2
    linarith
  constructor
  · rw [Int.le_floor]
    push_cast
    rw [le_div_iff (by norm_num : (0:ℝ) < 25)]
    linarith
  · rw [← Int.lt_add_one_iff, Int.floor_lt]
    push_cast
    rw [div_lt_iff (by norm_num : (0:ℝ) < 25)]
    linarith

/-- For an in-boundary position, the clamp in bucketIndex is inactive and the
bucket is exactly (cell y) * width + (cell x). -/
theorem bucketIndex_in_bounds (Q : Vec2) (hx : |Q.x| ≤ BOUNDARY_WIDTH / 2)
    (hy : |Q.y| ≤ BOUNDARY_HEIGHT / 2) :
    bucketIndex newGridGeom Q =
      cellY newGridGeom Q * newGridGeom.width_cells + cellX newGridGeom Q := by
  obtain ⟨hx1, hx2⟩ := cellXZ_range Q hx
  obtain ⟨hy1, hy2⟩ := cellYZ_range Q hy
  have hxN : cellX newGridGeom Q ≤ 53 := by
    rw [cellX_eq_toNat]
    omega
  have hyN : cellY newGridGeom Q ≤ 30 := by
    rw [cellY_eq_toNat]
    omega
  unfold bucketIndex
  rw [newGridGeom_width, newGridGeom_height] at *
  apply Nat.min_eq_left
  calc cellY newGridGeom Q * 56 + cellX newGridGeom Q ≤ 30 * 56 + 53 := by
        have := Nat.mul_le_mul_right 56 hyN
        omega
    _ ≤ 56 * 33 - 1 := by norm_num

/-- C3: with the grid geometry of FluidSimulation::new, if two in-boundary
particles P and Q are within distance d < h of each other, with h the current
smoothing radius and h no larger than the grid cell size, then after the grid
rebuild Q's index appears in the union of buckets of the 3x3 block of cells
centered on P's cell (out-of-bounds cells skipped) — the candidate set
enumerated by the density and force passes contains every true neighbor. -/
theorem neighbor_superset (h : ℝ) (positions : List Vec2) (i j : ℕ) (P Q : Vec2)
    (hi : positions.get? i = some P) (hj : positions.get? j = some Q)
    (hPx : |P.x| ≤ BOUNDARY_WIDTH / 2) (hPy : |P.y| ≤ BOUNDARY_HEIGHT / 2)
    (hQx : |Q.x| ≤ BOUNDARY_WIDTH / 2) (hQy : |Q.y| ≤ BOUNDARY_HEIGHT / 2)
    (hh0 : 0 < h) (hhc : h ≤ newGridGeom.cell_size)
    (hdist : Vec2.dist P Q < h) :
    j ∈ neighborCandidates (rebuildGrid newGridGeom positions)
      newGridGeom.width_cells newGridGeom.height_cells
      (cellX newGridGeom P) (cellY newGridGeom P) := by
  have hg : 0 < newGridGeom.width_cells * newGridGeom.height_cells := by
    rw [newGridGeom_width, newGridGeom_height]
    norm_num
  have hmem : j ∈ (rebuildGrid newGridGeom positions).getD
      (bucketIndex newGridGeom Q) [] := by
    rw [rebuildGrid_eq_foldl]
    exact rebuildFold_mem newGridGeom positions.enum (clearGrid newGridGeom)
      (by simp [clearGrid]) hg j Q (List.mk_mem_enum_iff_get?.mpr hj)
  rw [bucketIndex_in_bounds Q hQx hQy] at hmem
  obtain ⟨haP1, haP2⟩ := cellXZ_range P hPx
  obtain ⟨haQ1, haQ2⟩ := cellXZ_range Q hQx
  obtain ⟨hbP1, hbP2⟩ := cellYZ_range P hPy
  obtain ⟨hbQ1, hbQ2⟩ := cellYZ_range Q hQy
  have hcs : newGridGeom.cell_size = (25:ℝ) := rfl
  have hxd : |Q.x - P.x| ≤ 25 := by
    have h1 := Vec2.abs_sub_x_le_dist P Q
    linarith
  have hyd : |Q.y - P.y| ≤ 25 := by
    have h1 := Vec2.abs_sub_y_le_dist P Q
    linarith
  have hXfloor : cellXZ newGridGeom Q = cellXZ newGridGeom P - 1 ∨
      cellXZ newGridGeom Q = cellXZ newGridGeom P ∨
      cellXZ newGridGeom Q = cellXZ newGridGeom P + 1 := by
    unfold cellXZ
    apply floor_within_one
    have heq : (Q.x + newGridGeom.off_x) / newGridGeom.cell_size -
        (P.x + newGridGeom.off_x) / newGridGeom.cell_size = (Q.x - P.x) / 25 := by
      rw [hcs]
      ring
    rw [heq, abs_div, abs_of_pos (show (0:ℝ) < 25 by norm_num),
      div_le_one (show (0:ℝ) < 25 by norm_num)]
    exact hxd
  have hYfloor : cellYZ newGridGeom Q = cellYZ newGridGeom P - 1 ∨
      cellYZ newGridGeom Q = cellYZ newGridGeom P ∨
      cellYZ newGridGeom Q = cellYZ newGridGeom P + 1 := by
    unfold cellYZ
    apply floor_within_one
    have heq : (Q.y + newGridGeom.off_y) / newGridGeom.cell_size -
        (P.y + newGridGeom.off_y) / newGridGeom.cell_size = (Q.y - P.y) / 25 := by
      rw [hcs]
      ring
    rw [heq, abs_div, abs_of_pos (show (0:ℝ) < 25 by norm_num),
      div_le_one (show (0:ℝ) < 25 by norm_num)]
    exact hyd
  have hcastPx : ((cellX newGridGeom P : ℕ) : ℤ) = cellXZ newGridGeom P := by
    rw [cellX_eq_toNat]
    exact Int.toNat_of_nonneg (by omega)
  have hcastPy : ((cellY newGridGeom P : ℕ) : ℤ) = cellYZ newGridGeom P := by
    rw [cellY_eq_toNat]
    exact Int.toNat_of_nonneg (by omega)
  have hW : ((newGridGeom.width_cells : ℕ) : ℤ) = 56 := by
    rw [newGridGeom_width]
    norm_num
  have hH : ((newGridGeom.height_cells : ℕ) : ℤ) = 33 := by
    rw [newGridGeom_height]
    norm_num
  refine mem_neighborCandidates _ _ _ _ _
    (cellYZ newGridGeom Q - cellYZ newGridGeom P)
    (cellXZ newGridGeom Q - cellXZ newGridGeom P) ?_ ?_ ?_ ?_ ?_ j ?_
  · have hdx : cellXZ newGridGeom Q - cellXZ newGridGeom P = -1 ∨
        cellXZ newGridGeom Q - cellXZ newGridGeom P = 0 ∨
        cellXZ newGridGeom Q - cellXZ newGridGeom P = 1 := by omega
    have hdy : cellYZ newGridGeom Q - cellYZ newGridGeom P = -1 ∨
        cellYZ newGridGeom Q - cellYZ newGridGeom P = 0 ∨
        cellYZ newGridGeom Q - cellYZ newGridGeom P = 1 := by omega
    rcases hdx with hx1 | hx1 | hx1 <;> rcases hdy with hy1 | hy1 | hy1 <;>
      rw [hx1, hy1] <;> decide
  · rw [hcastPx]
    omega
  · rw [hcastPx, hW]
    omega
  · rw [hcastPy]
    omega
  · rw [hcastPy, hH]
    omega
  · have hix : ((cellX newGridGeom P : ℕ) : ℤ) +
        (cellXZ newGridGeom Q - cellXZ newGridGeom P) = cellXZ newGridGeom Q := by
      rw [hcastPx]
      ring
    have hiy : ((cellY newGridGeom P : ℕ) : ℤ) +
        (cellYZ newGridGeom Q - cellYZ newGridGeom P) = cellYZ newGridGeom Q := by
      rw [hcastPy]
      ring
    rw [hix, hiy, ← cellX_eq_toNat, ← cellY_eq_toNat]
    exact hmem

/-- Witness for C3: two particles 10 apart with h = 20 on the new-geometry grid. -/
theorem neighbor_superset_witness :
    Vec2.dist ⟨0, 0⟩ ⟨10, 0⟩ < 20 ∧
    1 ∈ neighborCandidates
      (rebuildGrid newGridGeom [⟨0, 0⟩, ⟨10, 0⟩])
      newGridGeom.width_cells newGridGeom.height_cells
      (cellX newGridGeom ⟨0, 0⟩) (cellY newGridGeom ⟨0, 0⟩) := by
  have hdist : Vec2.dist (⟨0, 0⟩ : Vec2) ⟨10, 0⟩ = 10 := by
    unfold Vec2.dist Vec2.dist_sq Vec2.length_sq Vec2.sub
    simp only
    rw [show (10:ℝ) - 0 = 10 by norm_num, show (0:ℝ) - 0 = 0 by norm_num,
      show (10:ℝ) * 10 + 0 * 0 = 100 by norm_num,
      show (100:ℝ) = 10 ^ 2 by norm_num, Real.sqrt_sq (by norm_num)]
  constructor
  · rw [hdist]
    norm_num
  · refine neighbor_superset 20 [⟨0, 0⟩, ⟨10, 0⟩] 0 1 ⟨0, 0⟩ ⟨10, 0⟩ rfl rfl ?_ ?_ ?_ ?_
      (by norm_num) ?_ ?_
    · unfold BOUNDARY_WIDTH
      norm_num
    · unfold BOUNDARY_HEIGHT
      norm_num
    · unfold BOUNDARY_WIDTH
      norm_num
    · unfold BOUNDARY_HEIGHT
      norm_num
    · show (20:ℝ) ≤ 25
      norm_num
    · rw [hdist]
      norm_num

/-! ## Density/pressure pass (src/systems.rs lines 78-108) -/

theorem getD_of_get? {α : Type} {l : List α} {i : ℕ} {x d : α}
    (h : l.get? i = some x) : l.getD i d = x := by
  rw [List.getD_eq_get?, h]
  rfl

/-- The density of particle i computed by the density pass: the sum over the
3x3 candidate walk of mass * poly6_kernel(dist_sq, h) for candidates within
squared distance h_sq of the position snapshot. -/
def densityAt (cfg : FluidConfig) (g : GridGeom) (gm : List (List ℕ))
    (positions : List Vec2) (i : ℕ) : ℝ :=
  ((neighborCandidates gm g.width_cells g.height_cells
      (cellX g (positions.getD i 0)) (cellY g (positions.getD i 0))).map
    (fun j =>
      if Vec2.dist_sq (positions.getD i 0) (positions.getD j 0) <
          cfg.smoothing_radius * cfg.smoothing_radius then
        cfg.particle_mass *
          poly6_kernel (Vec2.dist_sq (positions.getD i 0) (positions.getD j 0))
            cfg.smoothing_radius
      else 0)).sum

/-- The pressure written by the same pass: pressure_k * (d - target_density). -/
def pressureAt (cfg : FluidConfig) (g : GridGeom) (gm : List (List ℕ))
    (positions : List Vec2) (i : ℕ) : ℝ :=
  cfg.pressure_multiplier * (densityAt cfg g gm positions i - cfg.target_density)

theorem poly6_at_zero (h : ℝ) (hh : 0 < h) :
    poly6_kernel 0 h = 4 / (Real.pi * h ^ 2) := by
  unfold poly6_kernel
  rw [if_pos (by nlinarith : (0:ℝ) < h * h)]
  have hpi : Real.pi ≠ 0 := ne_of_gt Real.pi_pos
  have hne : h ≠ 0 := ne_of_gt hh
  field_simp
  ring

/-- C10 (implicit): with in-boundary positions, particle_mass > 0 and
0 < h <= grid cell size, every particle's own self-contribution is counted by
the density pass (i is in its own candidate set and its zero self-distance
passes the r^2 < h^2 test), so densities[i] >= particle_mass * 4/(pi h^2) > 0
— which is what makes the unfloored division by rho_i^2 in the pressure force
well-defined. -/
theorem density_self_contribution (cfg : FluidConfig) (positions : List Vec2)
    (i : ℕ) (P : Vec2) (hi : positions.get? i = some P)
    (hball : ∀ Q ∈ positions,
      |Q.x| ≤ BOUNDARY_WIDTH / 2 ∧ |Q.y| ≤ BOUNDARY_HEIGHT / 2)
    (hm : 0 < cfg.particle_mass) (hh0 : 0 < cfg.smoothing_radius)
    (hhc : cfg.smoothing_radius ≤ newGridGeom.cell_size) :
    cfg.particle_mass * (4 / (Real.pi * cfg.smoothing_radius ^ 2)) ≤
      densityAt cfg newGridGeom (rebuildGrid newGridGeom positions) positions i ∧
    0 < densityAt cfg newGridGeom (rebuildGrid newGridGeom positions) positions i := by
  obtain ⟨hPx, hPy⟩ := hball P (List.get?_mem hi)
  have hPd : positions.getD i 0 = P := getD_of_get? hi
  have hg : 0 < newGridGeom.width_cells * newGridGeom.height_cells := by
    rw [newGridGeom_width, newGridGeom_height]
    norm_num
  have hmem : i ∈ (rebuildGrid newGridGeom positions).getD
      (bucketIndex newGridGeom P) [] := by
    rw [rebuildGrid_eq_foldl]
    exact rebuildFold_mem newGridGeom positions.enum (clearGrid newGridGeom)
      (by simp [clearGrid]) hg i P (List.mk_mem_enum_iff_get?.mpr hi)
  rw [bucketIndex_in_bounds P hPx hPy] at hmem
  obtain ⟨haP1, haP2⟩ := cellXZ_range P hPx
  obtain ⟨hbP1, hbP2⟩ := cellYZ_range P hPy
  have hcastPx : ((cellX newGridGeom P : ℕ) : ℤ) = cellXZ newGridGeom P := by
    rw [cellX_eq_toNat]
    exact Int.toNat_of_nonneg (by omega)
  have hcastPy : ((cellY newGridGeom P : ℕ) : ℤ) = cellYZ newGridGeom P := by
    rw [cellY_eq_toNat]
    exact Int.toNat_of_nonneg (by omega)
  have hcand : i ∈ neighborCandidates (rebuildGrid newGridGeom positions)
      newGridGeom.width_cells newGridGeom.height_cells
      (cellX newGridGeom P) (cellY newGridGeom P) := by
    refine mem_neighborCandidates _ _ _ _ _ 0 0 (by decide) ?_ ?_ ?_ ?_ i ?_
    · omega
    · rw [add_zero, hcastPx, newGridGeom_width]
      omega
    · omega
    · rw [add_zero, hcastPy, newGridGeom_height]
      omega
    · have hx0 : ((cellX newGridGeom P : ℕ) : ℤ) + 0 = (cellX newGridGeom P : ℕ) := by
        omega
      have hy0 : ((cellY newGridGeom P : ℕ) : ℤ) + 0 = (cellY newGridGeom P : ℕ) := by
        omega
      rw [hx0, hy0, Int.toNat_natCast, Int.toNat_natCast]
      exact hmem
  set f : ℕ → ℝ := fun j =>
    if Vec2.dist_sq P (positions.getD j 0) <
        cfg.smoothing_radius * cfg.smoothing_radius then
      cfg.particle_mass *
        poly6_kernel (Vec2.dist_sq P (positions.getD j 0))
          cfg.smoothing_radius
    else 0 with hf
  have hfi : f i = cfg.particle_mass * (4 / (Real.pi * cfg.smoothing_radius ^ 2)) := by
    rw [hf]
    simp only
    rw [hPd, Vec2.dist_sq_self, if_pos (by nlinarith : (0:ℝ) <
      cfg.smoothing_radius * cfg.smoothing_radius),
      poly6_at_zero cfg.smoothing_radius hh0]
  have hnn : ∀ x ∈ (neighborCandidates (rebuildGrid newGridGeom positions)
      newGridGeom.width_cells newGridGeom.height_cells
      (cellX newGridGeom P) (cellY newGridGeom P)).map f, 0 ≤ x := by
    intro x hx
    obtain ⟨j, hjmem, rfl⟩ := List.mem_map.mp hx
    rw [hf]
    simp only
    split
    · exact mul_nonneg (le_of_lt hm) (poly6_nonneg hh0)
    · exact le_refl 0
  have hsum : f i ≤ ((neighborCandidates (rebuildGrid newGridGeom positions)
      newGridGeom.width_cells newGridGeom.height_cells
      (cellX newGridGeom P) (cellY newGridGeom P)).map f).sum :=
    List.single_le_sum hnn _ (List.mem_map_of_mem f hcand)
  have hda : densityAt cfg newGridGeom (rebuildGrid newGridGeom positions)
      positions i = ((neighborCandidates (rebuildGrid newGridGeom positions)
      newGridGeom.width_cells newGridGeom.height_cells
      (cellX newGridGeom P) (cellY newGridGeom P)).map f).sum := by
    unfold densityAt
    rw [hPd]
  have hposbound : 0 < cfg.particle_mass * (4 / (Real.pi * cfg.smoothing_radius ^ 2)) := by
    have hpi := Real.pi_pos
    positivity
  constructor
  · rw [hda, ← hfi]
    exact hsum
  · rw [hda]
    calc (0:ℝ) < f i := by rw [hfi]; exact hposbound
      _ ≤ _ := hsum

/-- Witness for C10: a single particle at the origin with the default config
(mass 1, h = 20). -/
theorem density_self_contribution_witness :
    0 < densityAt ⟨20, 1, 0.01, 200, 50, ⟨0, -100⟩, 10, 0.4, 200, 10⟩
      newGridGeom (rebuildGrid newGridGeom [⟨0, 0⟩]) [⟨0, 0⟩] 0 := by
  refine (density_self_contribution ⟨20, 1, 0.01, 200, 50, ⟨0, -100⟩, 10, 0.4, 200, 10⟩
    [⟨0, 0⟩] 0 ⟨0, 0⟩ rfl ?_ (by norm_num) (by norm_num) ?_).2
  · intro Q hQ
    rw [List.mem_singleton] at hQ
    subst hQ
    unfold BOUNDARY_WIDTH BOUNDARY_HEIGHT
    constructor <;> simp <;> norm_num
  · show (20:ℝ) ≤ 25
    norm_num

/-! ## The force pass (src/systems.rs lines 114-183) -/

instance : AddCommMonoid Vec2 where
  add_assoc a b c := by
    show Vec2.add (Vec2.add a b) c = Vec2.add a (Vec2.add b c)
    simp only [Vec2.add, Vec2.mk.injEq]
    constructor <;> ring
  zero_add a := by
    show Vec2.add Vec2.zero a = a
    simp [Vec2.add, Vec2.zero]
  add_zero a := by
    show Vec2.add a Vec2.zero = a
    simp [Vec2.add, Vec2.zero]
  add_comm a b := by
    show Vec2.add a b = Vec2.add b a
    simp only [Vec2.add, Vec2.mk.injEq]
    constructor <;> ring
  nsmul := nsmulRec

/-- The optional mouse interaction force: radial force with linearly decaying
strength inside mouse_radius, zero when no button is held or the particle sits
on the interaction point. -/
def interactionForce (cfg : FluidConfig) (interaction_pos : Vec2)
    (interaction_factor : ℝ) (pos : Vec2) : Vec2 :=
  if interaction_factor ≠ 0 then
    if Vec2.length (interaction_pos - pos) < cfg.mouse_radius ∧
        Vec2.length (interaction_pos - pos) > 0.001 then
      (cfg.mouse_strength * (1 - Vec2.length (interaction_pos - pos) / cfg.mouse_radius) *
        interaction_factor) •
        Vec2.sdiv (interaction_pos - pos) (Vec2.length (interaction_pos - pos))
    else 0
  else 0

/-- The force written for particle i by the force pass: pairwise pressure and
viscosity contributions over the 3x3 candidate walk (skipping j = i), plus
gravity * density and the interaction force. -/
def forceAt (cfg : FluidConfig) (g : GridGeom) (gm : List (List ℕ))
    (positions velocities : List Vec2) (densities pressures : List ℝ)
    (interaction_pos : Vec2) (interaction_factor : ℝ) (i : ℕ) : Vec2 :=
  ((neighborCandidates gm g.width_cells g.height_cells
      (cellX g (positions.getD i 0)) (cellY g (positions.getD i 0))).map
    (fun j =>
      if j = i then 0
      else
        pairPressureForce cfg.particle_mass cfg.smoothing_radius
          (pressures.getD i 0) (densities.getD i 0) (pressures.getD j 0)
          (densities.getD j 0) (positions.getD i 0) (positions.getD j 0) +
        pairViscosityForce cfg.particle_mass cfg.viscosity_strength
          cfg.smoothing_radius (velocities.getD i 0) (velocities.getD j 0)
          (densities.getD j 0) (positions.getD i 0) (positions.getD j 0))).sum +
  (densities.getD i 0) • cfg.gravity +
  interactionForce cfg interaction_pos interaction_factor (positions.getD i 0)

/-! ## One tick as a sequence of barriered parallel stages -/

/-- The full mutable state of FluidSimulation. -/
structure SimState where
  positions : List Vec2
  velocities : List Vec2
  forces : List Vec2
  densities : List ℝ
  pressures : List ℝ
  grid_map : List (List ℕ)
  geom : GridGeom

/-- One parallel stage: each index k of the schedule writes slot k with f k.
The schedule models the order in which worker threads happen to complete. -/
def writePass {α : Type} (order : List ℕ) (f : ℕ → α) (init : List α) :
    List α :=
  order.foldl (fun arr k => arr.set k (f k)) init

theorem writePass_length {α : Type} (o : List ℕ) (f : ℕ → α) (init : List α) :
    (writePass o f init).length = init.length := by
  induction o generalizing init with
  | nil => rfl
  | cons a as ih =>
    show (writePass as f (init.set a (f a))).length = init.length
    rw [ih, List.length_set]

theorem writePass_get?_of_not_mem {α : Type} (o : List ℕ) (f : ℕ → α)
    (init : List α) (k : ℕ) (hk : k ∉ o) :
    (writePass o f init).get? k = init.get? k := by
  induction o generalizing init with
  | nil => rfl
  | cons a as ih =>
    have hka : a ≠ k := by
      intro heq
      exact hk (heq ▸ List.mem_cons_self a as)
    show (writePass as f (init.set a (f a))).get? k = init.get? k
    rw [ih _ (fun hc => hk (List.mem_cons_of_mem a hc)),
      List.get?_set_ne _ _ hka]

theorem writePass_get?_of_mem {α : Type} (o : List ℕ) (f : ℕ → α)
    (init : List α) (k : ℕ) (hk : k ∈ o) (hlen : k < init.length) :
    (writePass o f init).get? k = some (f k) := by
  induction o generalizing init with
  | nil => simp at hk
  | cons a as ih =>
    show (writePass as f (init.set a (f a))).get? k = some (f k)
    by_cases hka : k ∈ as
    · exact ih _ hka (by rw [List.length_set]; exact hlen)
    · have hak : k = a := by
        rcases List.mem_cons.mp hk with h | h
        · exact h
        · exact absurd h hka
      subst hak
      rw [writePass_get?_of_not_mem as f _ k hka]
      exact List.get?_set_eq_of_lt _ hlen

/-- Any scheduling of a stage that touches each of the first m slots exactly
once produces the canonical result. -/
theorem writePass_perm_eq {α : Type} (o : List ℕ) (f : ℕ → α) (init : List α)
    (m : ℕ) (hm : m ≤ init.length) (hp : o.Perm (List.range m)) :
    writePass o f init = (List.range m).map f ++ init.drop m := by
  apply List.ext_get?
  intro k
  by_cases hk : k < m
  · have hkm : k ∈ o := (hp.mem_iff).mpr (List.mem_range.mpr hk)
    rw [writePass_get?_of_mem o f init k hkm (lt_of_lt_of_le hk hm),
      List.get?_append (by simp only [List.length_map, List.length_range]; exact hk),
      List.get?_map, List.get?_range hk]
    rfl
  · have hkm : k ∉ o := fun hc => hk (List.mem_range.mp (hp.mem_iff.mp hc))
    rw [writePass_get?_of_not_mem o f init k hkm,
      List.get?_append_right (by simp only [List.length_map, List.length_range]; omega)]
    simp only [List.length_map, List.length_range]
    rw [List.get?_drop]
    congr 1
    omega

/-- The grid rebuilt at the start of a tick. -/
def gridOf (s : SimState) : List (List ℕ) := rebuildGrid s.geom s.positions

/-- Densities after the density/pressure pass run under schedule o1. -/
def densitiesAfter (cfg : FluidConfig) (o1 : List ℕ) (s : SimState) : List ℝ :=
  writePass o1 (densityAt cfg s.geom (gridOf s) s.positions) s.densities

/-- Pressures after the density/pressure pass run under schedule o1. -/
def pressuresAfter (cfg : FluidConfig) (o1 : List ℕ) (s : SimState) : List ℝ :=
  writePass o1 (pressureAt cfg s.geom (gridOf s) s.positions) s.pressures

/-- Forces after the force pass run under schedule o2, reading the previous
stage's densities and pressures. -/
def forcesAfter (cfg : FluidConfig) (interaction_pos : Vec2)
    (interaction_factor : ℝ) (o1 o2 : List ℕ) (s : SimState) : List Vec2 :=
  writePass o2
    (forceAt cfg s.geom (gridOf s) s.positions s.velocities
      (densitiesAfter cfg o1 s) (pressuresAfter cfg o1 s)
      interaction_pos interaction_factor) s.forces

/-- Positions after the integration pass run under schedule o3. -/
def positionsAfter (cfg : FluidConfig) (interaction_pos : Vec2)
    (interaction_factor : ℝ) (o1 o2 o3 : List ℕ) (s : SimState) : List Vec2 :=
  writePass o3 (fun i =>
    (integrateParticle cfg.boundary_damping (0.002 * cfg.time_scale)
      (s.positions.getD i 0) (s.velocities.getD i 0)
      ((forcesAfter cfg interaction_pos interaction_factor o1 o2 s).getD i 0)
      ((densitiesAfter cfg o1 s).getD i 0)).1) s.positions

/-- Velocities after the integration pass run under schedule o3. -/
def velocitiesAfter (cfg : FluidConfig) (interaction_pos : Vec2)
    (interaction_factor : ℝ) (o1 o2 o3 : List ℕ) (s : SimState) : List Vec2 :=
  writePass o3 (fun i =>
    (integrateParticle cfg.boundary_damping (0.002 * cfg.time_scale)
      (s.positions.getD i 0) (s.velocities.getD i 0)
      ((forcesAfter cfg interaction_pos interaction_factor o1 o2 s).getD i 0)
      ((densitiesAfter cfg o1 s).getD i 0)).2) s.velocities

/-- The number of slots the zipped density/pressure pass iterates. -/
def dpLen (s : SimState) : ℕ := min s.densities.length s.pressures.length

/-- The number of slots the zipped integration pass iterates. -/
def integLen (s : SimState) : ℕ :=
  min (min s.positions.length s.velocities.length)
    (min s.forces.length s.densities.length)

/-- One tick of update_physics_rayon under explicit intra-stage schedules:
early-out on non-positive dt, then grid rebuild, density/pressure pass,
force pass, integration pass, each stage a barriered parallel map. -/
def tickWith (cfg : FluidConfig) (interaction_pos : Vec2)
    (interaction_factor : ℝ) (o1 o2 o3 : List ℕ) (s : SimState) : SimState :=
  if 0.002 * cfg.time_scale ≤ 0 then s
  else
    ⟨positionsAfter cfg interaction_pos interaction_factor o1 o2 o3 s,
     velocitiesAfter cfg interaction_pos interaction_factor o1 o2 o3 s,
     forcesAfter cfg interaction_pos interaction_factor o1 o2 s,
     densitiesAfter cfg o1 s,
     pressuresAfter cfg o1 s,
     gridOf s,
     s.geom⟩

/-- One tick of update_physics_rayon with the canonical in-order schedules. -/
def updatePhysics (cfg : FluidConfig) (interaction_pos : Vec2)
    (interaction_factor : ℝ) (s : SimState) : SimState :=
  tickWith cfg interaction_pos interaction_factor
    (List.range (dpLen s)) (List.range s.forces.length)
    (List.range (integLen s)) s

/-- C5: one tick is deterministic and independent of intra-stage scheduling:
each stage's per-particle output reads only arrays fully written by earlier
stages, so running the density/pressure, force and integration passes under
any schedules that touch each slot exactly once yields the state produced by
the canonical in-order schedules. -/
theorem tick_schedule_independent (cfg : FluidConfig) (interaction_pos : Vec2)
    (interaction_factor : ℝ) (s : SimState) (o1 o2 o3 : List ℕ)
    (h1 : o1.Perm (List.range (dpLen s)))
    (h2 : o2.Perm (List.range s.forces.length))
    (h3 : o3.Perm (List.range (integLen s))) :
    tickWith cfg interaction_pos interaction_factor o1 o2 o3 s =
      updatePhysics cfg interaction_pos interaction_factor s := by
  have hD : densitiesAfter cfg o1 s = densitiesAfter cfg (List.range (dpLen s)) s := by
    unfold densitiesAfter
    rw [writePass_perm_eq o1 _ _ (dpLen s) (min_le_left _ _) h1,
      writePass_perm_eq (List.range (dpLen s)) _ _ (dpLen s) (min_le_left _ _)
        (List.Perm.refl _)]
  have hP : pressuresAfter cfg o1 s = pressuresAfter cfg (List.range (dpLen s)) s := by
    unfold pressuresAfter
    rw [writePass_perm_eq o1 _ _ (dpLen s) (min_le_right _ _) h1,
      writePass_perm_eq (List.range (dpLen s)) _ _ (dpLen s) (min_le_right _ _)
        (List.Perm.refl _)]
  have hF : forcesAfter cfg interaction_pos interaction_factor o1 o2 s =
      forcesAfter cfg interaction_pos interaction_factor
        (List.range (dpLen s)) (List.range s.forces.length) s := by
    unfold forcesAfter
    rw [hD, hP, writePass_perm_eq o2 _ _ s.forces.length (le_refl _) h2,
      writePass_perm_eq (List.range s.forces.length) _ _ s.forces.length
        (le_refl _) (List.Perm.refl _)]
  have hPos : positionsAfter cfg interaction_pos interaction_factor o1 o2 o3 s =
      positionsAfter cfg interaction_pos interaction_factor
        (List.range (dpLen s)) (List.range s.forces.length)
        (List.range (integLen s)) s := by
    unfold positionsAfter
    rw [hD, hF, writePass_perm_eq o3 _ _ (integLen s)
        (le_trans (min_le_left _ _) (min_le_left _ _)) h3,
      writePass_perm_eq (List.range (integLen s)) _ _ (integLen s)
        (le_trans (min_le_left _ _) (min_le_left _ _)) (List.Perm.refl _)]
  have hVel : velocitiesAfter cfg interaction_pos interaction_factor o1 o2 o3 s =
      velocitiesAfter cfg interaction_pos interaction_factor
        (List.range (dpLen s)) (List.range s.forces.length)
        (List.range (integLen s)) s := by
    unfold velocitiesAfter
    rw [hD, hF, writePass_perm_eq o3 _ _ (integLen s)
        (le_trans (min_le_left _ _) (min_le_right _ _)) h3,
      writePass_perm_eq (List.range (integLen s)) _ _ (integLen s)
        (le_trans (min_le_left _ _) (min_le_right _ _)) (List.Perm.refl _)]
  unfold updatePhysics tickWith
  by_cases hdt : 0.002 * cfg.time_scale ≤ 0
  · rw [if_pos hdt, if_pos hdt]
  · rw [if_neg hdt, if_neg hdt, hD, hP, hF, hPos, hVel]

/-- Witness for C5: a one-particle state, reversed singleton schedules. -/
theorem tick_schedule_independent_witness :
    tickWith ⟨20, 1, 0.01, 200, 50, ⟨0, -100⟩, 10, 0.4, 200, 10⟩ ⟨0, 0⟩ 0
      [0] [0] [0]
      ⟨[⟨0, 0⟩], [⟨0, 0⟩], [⟨0, 0⟩], [0], [0], [[]], ⟨1, 1, 1, 0, 0⟩⟩ =
    updatePhysics ⟨20, 1, 0.01, 200, 50, ⟨0, -100⟩, 10, 0.4, 200, 10⟩ ⟨0, 0⟩ 0
      ⟨[⟨0, 0⟩], [⟨0, 0⟩], [⟨0, 0⟩], [0], [0], [[]], ⟨1, 1, 1, 0, 0⟩⟩ := by
  refine tick_schedule_independent _ _ _ _ [0] [0] [0] ?_ ?_ ?_
  · show List.Perm [0] (List.range (dpLen _))
    rw [show dpLen ⟨[⟨0, 0⟩], [⟨0, 0⟩], [⟨0, 0⟩], [0], [0], [[]], ⟨1, 1, 1, 0, 0⟩⟩ = 1 from rfl]
    decide
  · show List.Perm [0] (List.range 1)
    decide
  · show List.Perm [0] (List.range (integLen _))
    rw [show integLen ⟨[⟨0, 0⟩], [⟨0, 0⟩], [⟨0, 0⟩], [0], [0], [[]], ⟨1, 1, 1, 0, 0⟩⟩ = 1 from rfl]
    decide

/-- C7: when the effective time step dt = 0.002 * time_scale is non-positive
(time_scale <= 0), a tick is a no-op: every field of the state, the grid
included, is left unchanged. -/
theorem tick_noop_on_nonpositive_dt (cfg : FluidConfig)
    (interaction_pos : Vec2) (interaction_factor : ℝ) (s : SimState)
    (hts : cfg.time_scale ≤ 0) :
    updatePhysics cfg interaction_pos interaction_factor s = s := by
  unfold updatePhysics tickWith
  rw [if_pos]
  exact mul_nonpos_of_nonneg_of_nonpos (by norm_num) hts

/-- Witness for C7 at time_scale = -1 on a one-particle state. -/
theorem tick_noop_on_nonpositive_dt_witness :
    updatePhysics ⟨20, 1, 0.01, 200, 50, ⟨0, -100⟩, -1, 0.4, 200, 10⟩ ⟨0, 0⟩ 0
      ⟨[⟨3, 4⟩], [⟨1, 2⟩], [⟨0, 0⟩], [0], [0], [[]], ⟨1, 1, 1, 0, 0⟩⟩ =
    ⟨[⟨3, 4⟩], [⟨1, 2⟩], [⟨0, 0⟩], [0], [0], [[]], ⟨1, 1, 1, 0, 0⟩⟩ :=
  tick_noop_on_nonpositive_dt _ _ _ _ (by norm_num)

/-! ## reset_to_grid (src/resources/simulation.rs lines 66-114) -/

/-- Rust f32::clamp(lo, hi): x.max(lo).min(hi). -/
def rustClamp (x lo hi : ℝ) : ℝ := min (max x lo) hi

/-- grid_size = (N as f32).sqrt().ceil() as usize; cols = grid_size. -/
def gridCols (N : ℕ) : ℕ := (⌈Real.sqrt (N : ℝ)⌉).toNat

/-- rows = N.div_ceil(cols) = (N + cols - 1) / cols. -/
def gridRows (N : ℕ) : ℕ := (N + gridCols N - 1) / gridCols N

/-- spacing_x: available_width / (cols - 1) when cols > 1, else available_width,
with available_width = BOUNDARY_WIDTH * 0.7. -/
def gridSpacingX (N : ℕ) : ℝ :=
  if 1 < gridCols N then BOUNDARY_WIDTH * 0.7 / ((gridCols N - 1 : ℕ) : ℝ)
  else BOUNDARY_WIDTH * 0.7

/-- spacing_y: available_height / (rows - 1) when rows > 1, else
available_height, with available_height = BOUNDARY_HEIGHT * 0.7. -/
def gridSpacingY (N : ℕ) : ℝ :=
  if 1 < gridRows N then BOUNDARY_HEIGHT * 0.7 / ((gridRows N - 1 : ℕ) : ℝ)
  else BOUNDARY_HEIGHT * 0.7

/-- spacing = spacing_x.min(spacing_y).clamp(12.0, 20.0). -/
def gridSpacing (N : ℕ) : ℝ := rustClamp (min (gridSpacingX N) (gridSpacingY N)) 12 20

/-- start_x = -total_width / 2 with total_width = (cols - 1) as f32 * spacing. -/
def gridStartX (N : ℕ) : ℝ := -(((gridCols N - 1 : ℕ) : ℝ) * gridSpacing N) / 2

/-- start_y = -total_height / 2 with total_height = (rows - 1) as f32 * spacing. -/
def gridStartY (N : ℕ) : ℝ := -(((gridRows N - 1 : ℕ) : ℝ) * gridSpacing N) / 2

/-- The double placement loop of reset_to_grid: row-major, the inner loop
breaking as soon as particle_index = row * cols + col reaches N (the break is
the takeWhile since the index is increasing in col). -/
def resetGridPositions (N : ℕ) : List Vec2 :=
  (List.range (gridRows N)).flatMap (fun row =>
    ((List.range (gridCols N)).takeWhile
        (fun col => decide (row * gridCols N + col < N))).map
      (fun col : ℕ => ⟨gridStartX N + (col : ℝ) * gridSpacing N,
                       gridStartY N + (row : ℝ) * gridSpacing N⟩))

/-- The velocities pushed by the same loop: one zero vector per placed slot. -/
def resetGridVelocities (N : ℕ) : List Vec2 :=
  (List.range (gridRows N)).flatMap (fun row =>
    ((List.range (gridCols N)).takeWhile
        (fun col => decide (row * gridCols N + col < N))).map
      (fun _ => Vec2.zero))

/-- The full effect of reset_to_grid on the five particle arrays (positions,
velocities, forces, densities, pressures); the last three are fill(0) on
arrays of length PARTICLE_COUNT = N. -/
def reset_to_grid (N : ℕ) :
    List Vec2 × List Vec2 × List Vec2 × List ℝ × List ℝ :=
  (resetGridPositions N, resetGridVelocities N,
    List.replicate N Vec2.zero, List.replicate N 0, List.replicate N 0)

theorem takeWhile_range_lt (m n : ℕ) :
    (List.range n).takeWhile (fun c => decide (c < m)) = List.range (min m n) := by
  induction n generalizing m with
  | zero => simp
  | succ n ih =>
    rw [List.range_succ_eq_map]
    cases m with
    | zero => simp
    | succ m' =>
      rw [List.takeWhile_cons, if_pos (by simp), List.takeWhile_map]
      have hcomp : ((fun c => decide (c < m' + 1)) ∘ Nat.succ) =
          (fun c => decide (c < m')) := by
        funext c
        simp [Nat.succ_lt_succ_iff]
      rw [hcomp, ih m', show min (m' + 1) (n + 1) = min m' n + 1 by omega,
        List.range_succ_eq_map]

theorem takeWhile_shift (a N cols : ℕ) :
    (List.range cols).takeWhile (fun col => decide (a + col < N)) =
      List.range (min (N - a) cols) := by
  have hpred : (fun col => decide (a + col < N)) =
      (fun col => decide (col < N - a)) := by
    funext col
    simp only [decide_eq_decide]
    omega
  rw [hpred, takeWhile_range_lt]

theorem rowmajor_full (g : ℕ → ℕ → Vec2) (cols : ℕ) (hcols : 0 < cols) :
    ∀ (rows N : ℕ), rows * cols ≤ N →
    (List.range rows).flatMap (fun row =>
      ((List.range cols).takeWhile
          (fun col => decide (row * cols + col < N))).map (g row)) =
    (List.range (rows * cols)).map (fun k => g (k / cols) (k % cols)) := by
  intro rows
  induction rows with
  | zero =>
    intro N _
    simp
  | succ rows ih =>
    intro N hN
    rw [List.range_succ, List.flatMap_append, List.flatMap_singleton]
    have hle : rows * cols ≤ N :=
      le_trans (Nat.mul_le_mul_right cols (Nat.le_succ rows)) hN
    rw [ih N hle, takeWhile_shift]
    have hmin : min (N - rows * cols) cols = cols := by
      have hstep : rows * cols + cols ≤ N := by
        calc rows * cols + cols = (rows + 1) * cols := by ring
          _ ≤ N := hN
      omega
    rw [hmin, show (rows + 1) * cols = rows * cols + cols by ring,
      List.range_add, List.map_append]
    congr 1
    rw [List.map_map]
    apply List.map_congr_left
    intro c hc
    rw [List.mem_range] at hc
    simp only [Function.comp_apply]
    have hdiv : (rows * cols + c) / cols = rows := by
      rw [show rows * cols + c = c + cols * rows by ring,
        Nat.add_mul_div_left _ _ hcols, Nat.div_eq_of_lt hc, Nat.zero_add]
    have hmod : (rows * cols + c) % cols = c := by
      rw [show rows * cols + c = c + cols * rows by ring,
        Nat.add_mul_mod_self_left, Nat.mod_eq_of_lt hc]
    rw [hdiv, hmod]

theorem rowmajor_flatMap (g : ℕ → ℕ → Vec2) (cols rows N : ℕ) (hcols : 0 < cols)
    (h1 : N ≤ rows * cols) (h2 : (rows - 1) * cols < N) :
    (List.range rows).flatMap (fun row =>
      ((List.range cols).takeWhile
          (fun col => decide (row * cols + col < N))).map (g row)) =
    (List.range N).map (fun k => g (k / cols) (k % cols)) := by
  cases rows with
  | zero =>
    have : N = 0 := by omega
    subst this
    simp
  | succ rows =>
    have h2' : rows * cols < N := by simpa using h2
    rw [List.range_succ, List.flatMap_append, List.flatMap_singleton,
      rowmajor_full g cols hcols rows N (le_of_lt h2'), takeWhile_shift]
    have hrle : N - rows * cols ≤ cols := by
      have hstep : N ≤ rows * cols + cols := by
        calc N ≤ (rows + 1) * cols := h1
          _ = rows * cols + cols := by ring
      omega
    have hmin : min (N - rows * cols) cols = N - rows * cols := by omega
    rw [hmin]
    conv_rhs => rw [show N = rows * cols + (N - rows * cols) by omega]
    rw [List.range_add, List.map_append]
    congr 1
    rw [List.map_map]
    apply List.map_congr_left
    intro c hc
    rw [List.mem_range] at hc
    have hclt : c < cols := lt_of_lt_of_le hc hrle
    simp only [Function.comp_apply]
    have hdiv : (rows * cols + c) / cols = rows := by
      rw [show rows * cols + c = c + cols * rows by ring,
        Nat.add_mul_div_left _ _ hcols, Nat.div_eq_of_lt hclt, Nat.zero_add]
    have hmod : (rows * cols + c) % cols = c := by
      rw [show rows * cols + c = c + cols * rows by ring,
        Nat.add_mul_mod_self_left, Nat.mod_eq_of_lt hclt]
    rw [hdiv, hmod]

/-- C9: reset_to_grid produces a near-square row-major layout: cols is the
ceiling of sqrt N and rows the ceiling of N/cols (characterized by their
defining inequalities); the uniform spacing, derived from 70% of the domain on
each axis taking the smaller, is clamped into [12, 20]; particle k sits at
slot (row, col) = (k / cols, k % cols) of the layout whose start corner is
minus half the total extent (centered at the origin: symmetric slots cancel);
slots with index >= N are skipped so exactly N particles are placed; and
velocities, forces, densities, pressures are all reset to zero. -/
theorem reset_to_grid_layout (N : ℕ) (hN : 0 < N) :
    (Real.sqrt (N : ℝ) ≤ (gridCols N : ℝ) ∧
      (gridCols N : ℝ) - 1 < Real.sqrt (N : ℝ)) ∧
    ((gridRows N - 1) * gridCols N < N ∧ N ≤ gridRows N * gridCols N) ∧
    (12 ≤ gridSpacing N ∧ gridSpacing N ≤ 20) ∧
    resetGridPositions N = (List.range N).map (fun k =>
      ⟨gridStartX N + ((k % gridCols N : ℕ) : ℝ) * gridSpacing N,
       gridStartY N + ((k / gridCols N : ℕ) : ℝ) * gridSpacing N⟩) ∧
    (resetGridPositions N).length = N ∧
    (∀ col, col < gridCols N →
      (gridStartX N + (col : ℝ) * gridSpacing N) +
        (gridStartX N + ((gridCols N - 1 - col : ℕ) : ℝ) * gridSpacing N) = 0) ∧
    (∀ row, row < gridRows N →
      (gridStartY N + (row : ℝ) * gridSpacing N) +
        (gridStartY N + ((gridRows N - 1 - row : ℕ) : ℝ) * gridSpacing N) = 0) ∧
    resetGridVelocities N = List.replicate N Vec2.zero ∧
    reset_to_grid N = (resetGridPositions N, resetGridVelocities N,
      List.replicate N Vec2.zero, List.replicate N 0, List.replicate N 0) := by
  have hsqrt_pos : (0:ℝ) < Real.sqrt (N : ℝ) := by
    rw [Real.sqrt_pos]
    exact_mod_cast hN
  have hceil1 : (1:ℤ) ≤ ⌈Real.sqrt (N : ℝ)⌉ := Int.one_le_ceil_iff.mpr hsqrt_pos
  have hcols : 0 < gridCols N := by
    unfold gridCols
    omega
  have hcast_cols : ((gridCols N : ℕ) : ℝ) = ((⌈Real.sqrt (N : ℝ)⌉ : ℤ) : ℝ) := by
    unfold gridCols
    exact_mod_cast congrArg (fun z : ℤ => (z : ℝ))
      (Int.toNat_of_nonneg (show (0:ℤ) ≤ ⌈Real.sqrt (N : ℝ)⌉ by omega))
  have hcols_char : Real.sqrt (N : ℝ) ≤ (gridCols N : ℝ) ∧
      (gridCols N : ℝ) - 1 < Real.sqrt (N : ℝ) := by
    constructor
    · rw [hcast_cols]
      exact Int.le_ceil _
    · rw [hcast_cols]
      have := Int.ceil_lt_add_one (Real.sqrt (N : ℝ))
      linarith
  have hre : gridRows N = (N - 1) / gridCols N + 1 := by
    unfold gridRows
    rw [show N + gridCols N - 1 = (N - 1) + gridCols N by omega,
      Nat.add_div_right _ hcols]
  have h2 : (gridRows N - 1) * gridCols N < N := by
    rw [hre, Nat.add_sub_cancel]
    have hms := Nat.div_mul_le_self (N - 1) (gridCols N)
    omega
  have h1 : N ≤ gridRows N * gridCols N := by
    rw [hre, add_mul, one_mul, Nat.mul_comm]
    have hq := Nat.div_add_mod (N - 1) (gridCols N)
    have hmlt := Nat.mod_lt (N - 1) hcols
    generalize hA : gridCols N * ((N - 1) / gridCols N) = A at hq ⊢
    omega
  have hs1 : 12 ≤ gridSpacing N := by
    unfold gridSpacing rustClamp
    exact le_min (le_max_right _ _) (by norm_num)
  have hs2 : gridSpacing N ≤ 20 := min_le_right _ _
  have hpos_eq : resetGridPositions N = (List.range N).map (fun k =>
      ⟨gridStartX N + ((k % gridCols N : ℕ) : ℝ) * gridSpacing N,
       gridStartY N + ((k / gridCols N : ℕ) : ℝ) * gridSpacing N⟩) := by
    unfold resetGridPositions
    exact rowmajor_flatMap
      (fun row col => ⟨gridStartX N + (col : ℝ) * gridSpacing N,
        gridStartY N + (row : ℝ) * gridSpacing N⟩)
      (gridCols N) (gridRows N) N hcols h1 h2
  have hvel : resetGridVelocities N = List.replicate N Vec2.zero := by
    have hv1 : resetGridVelocities N =
        (List.range N).map (fun _ => Vec2.zero) := by
      unfold resetGridVelocities
      exact rowmajor_flatMap (fun _ _ => Vec2.zero) (gridCols N) (gridRows N) N
        hcols h1 h2
    rw [hv1]
    apply List.eq_replicate.mpr
    refine ⟨by simp, ?_⟩
    intro b hb
    obtain ⟨k, hk, rfl⟩ := List.mem_map.mp hb
    rfl
  refine ⟨hcols_char, ⟨h2, h1⟩, ⟨hs1, hs2⟩, hpos_eq, ?_, ?_, ?_, hvel, rfl⟩
  · rw [hpos_eq]
    simp
  · intro col hcol
    have hc1 : col ≤ gridCols N - 1 := by omega
    have hc2 : (1:ℕ) ≤ gridCols N := hcols
    unfold gridStartX
    rw [Nat.cast_sub hc1, Nat.cast_sub hc2]
    push_cast
    ring
  · intro row hrow
    have hrpos : 0 < gridRows N := by omega
    have hr1 : row ≤ gridRows N - 1 := by omega
    have hr2 : (1:ℕ) ≤ gridRows N := hrpos
    unfold gridStartY
    rw [Nat.cast_sub hr1, Nat.cast_sub hr2]
    push_cast
    ring

/-- Witness for C9 at the spec scenario N = 100. -/
theorem reset_to_grid_layout_witness :
    (resetGridPositions 100).length = 100 ∧
    12 ≤ gridSpacing 100 ∧ gridSpacing 100 ≤ 20 ∧
    resetGridVelocities 100 = List.replicate 100 Vec2.zero := by
  have h := reset_to_grid_layout 100 (by norm_num)
  exact ⟨h.2.2.2.2.1, h.2.2.1.1, h.2.2.1.2, h.2.2.2.2.2.2.2.1⟩

end Fluid2d
